import Mathlib

/-!
# Verification of `video-concat-av1-container` (`src/video.rs`)

Shallow embedding of the encoding decision pipeline of `src/video.rs`:
input analysis, filter-graph synthesis, quality-driven CRF search and
process-result interpretation.  External process invocations (`ffmpeg`,
`ab-av1`, `ffprobe`) are abstracted by an environment that supplies each
invocation's captured result; everything the Rust code computes from those
results is embedded as executable Lean definitions.
-/

namespace VideoConcat

/-! ## Character classes

`\d`, `\s` and `\w` of the `regex` crate, restricted to ASCII (the Rust
defaults are the Unicode classes; every string handled by the program's
regexes is ASCII tool output, where the classes coincide). -/

def isDigitCh (c : Char) : Bool :=
  '0' ≤ c && c ≤ '9'

/-- Whitespace class `\s` (ASCII part: space, tab, newline, vertical tab,
form feed, carriage return). -/
def isSpaceCh (c : Char) : Bool :=
  c = ' ' || c = '\t' || c = '\n' || c = '\x0b' || c = '\x0c' || c = '\r'

/-- Word-character class `\w` (ASCII part), used for the word boundary `\b`. -/
def isWordCh (c : Char) : Bool :=
  c.isAlphanum || c = '_'

/-- Value of a string of decimal digits. -/
def digitsToNat (cs : List Char) : Nat :=
  cs.foldl (fun n c => 10 * n + (c.toNat - '0'.toNat)) 0

/-! ## Integer parsing

`str::parse::<u8>` accepts an optional leading `+` followed by one or more
decimal digits whose value fits in 8 bits.  (A leading `-` is rejected for
an unsigned target type.) -/

def parse_u8 (s : String) : Option Nat :=
  let cs := s.toList
  let cs := match cs with
    | '+' :: rest => rest
    | _ => cs
  if cs ≠ [] ∧ cs.all isDigitCh then
    let v := digitsToNat cs
    if v ≤ 255 then some v else none
  else none

/-- `parse_number` of `video.rs`: parse, mapping failure to the supplied
error value. -/
def parse_number {α ε : Type} (parse : String → Option α) (s : String) (err : ε) :
    Except ε α :=
  match parse s with
  | some v => Except.ok v
  | none => Except.error err

/-! ## Model of `f64` values produced by `str::parse::<f64>`

The Rust float grammar (per `f64::from_str`):

    Float  ::= Sign? ( 'inf' | 'infinity' | 'nan' | Number )   (keywords case-insensitive)
    Number ::= Count '.'? Count? Exp? | '.' Count Exp?
    Exp    ::= ('e' | 'E') Sign? Count
    Count  ::= digit+

A finite literal is modelled by its exact decimal rational value.  Rust
rounds that value to the nearest `f64` (and maps out-of-range magnitudes to
infinity); the numeric value of a parsed finite literal is never load-bearing
below, only acceptance and the finite/`inf`/`nan` classification are. -/

inductive F64 where
  | finite : ℚ → F64
  | inf : Bool → F64
  | nan : F64
  deriving DecidableEq, Repr

/-- Split a leading run of decimal digits from the rest. -/
def spanDigits (cs : List Char) : List Char × List Char :=
  (cs.takeWhile isDigitCh, cs.dropWhile isDigitCh)

/-- Parse the optional exponent part (`Exp?`), requiring the whole rest of
the input to be consumed.  `none` signals a malformed literal. -/
def parseExpPart : List Char → Option Int
  | [] => some 0
  | c :: r =>
    if c = 'e' ∨ c = 'E' then
      let (neg, r') := match r with
        | '+' :: r2 => (false, r2)
        | '-' :: r2 => (true, r2)
        | r2 => (false, r2)
      let (ds, rest) := spanDigits r'
      if ds = [] ∨ rest ≠ [] then none
      else some (if neg then -(digitsToNat ds : Int) else (digitsToNat ds : Int))
    else none

/-- Exact rational value of a decimal literal `ip . fp × 10^e`. -/
def decimalVal (neg : Bool) (ip fp : List Char) (e : Int) : ℚ :=
  let m : Int := (digitsToNat (ip ++ fp) : Int)
  let m := if neg then -m else m
  let shift : Int := e - (fp.length : Int)
  if 0 ≤ shift then mkRat (m * 10 ^ shift.toNat) 1 else mkRat m (10 ^ (-shift).toNat)

/-- Parse the `Number` production (after the optional sign). -/
def parseDecimal (neg : Bool) (cs : List Char) : Option F64 :=
  let (ip, r1) := spanDigits cs
  if ip = [] then
    match r1 with
    | '.' :: r2 =>
      let (fp, r3) := spanDigits r2
      if fp = [] then none
      else
        match parseExpPart r3 with
        | none => none
        | some e => some (F64.finite (decimalVal neg ip fp e))
    | _ => none
  else
    match r1 with
    | '.' :: r2 =>
      let (fp, r3) := spanDigits r2
      match parseExpPart r3 with
      | none => none
      | some e => some (F64.finite (decimalVal neg ip fp e))
    | r =>
      match parseExpPart r with
      | none => none
      | some e => some (F64.finite (decimalVal neg ip [] e))

/-- `str::parse::<f64>`. -/
def rustParseF64 (s : String) : Option F64 :=
  let cs := s.toList
  let (neg, cs) := match cs with
    | '+' :: r => (false, r)
    | '-' :: r => (true, r)
    | r => (false, r)
  let lower := cs.map Char.toLower
  if lower = "inf".toList ∨ lower = "infinity".toList then some (F64.inf neg)
  else if lower = "nan".toList then some F64.nan
  else parseDecimal neg cs

/-! ## Display of `f64` values

`format!("{}", x)` for `f64` prints the shortest decimal string that reads
back as the same double.  On the exactly-representable decimal values that
occur in this development the rendering below (plain decimal expansion)
agrees; no property below depends on the digits themselves, only on the
statement shape around them. -/

def fracDigitList : Nat → Nat → Nat → List Char
  | _, _, 0 => []
  | r, d, fuel + 1 =>
    if r = 0 then []
    else
      let r10 := r * 10
      Nat.digitChar (r10 / d) :: fracDigitList (r10 % d) d fuel

def ratDisplay (q : ℚ) : String :=
  let sign := if q < 0 then "-" else ""
  let a := q.num.natAbs
  let d := q.den
  let frac := fracDigitList (a % d) d 32
  sign ++ toString (a / d) ++ (if frac = [] then "" else "." ++ String.mk frac)

def f64Display : F64 → String
  | F64.nan => "NaN"
  | F64.inf b => (if b then "-inf" else "inf")
  | F64.finite q => ratDisplay q

/-! ## Process model

`std::process::Command::output()` either fails to spawn (carrying an OS
error message) or yields an exit status plus captured stdout/stderr.  The
embedding threads each invocation's result in explicitly. -/

structure ExitStatus where
  success : Bool
  deriving DecidableEq, Repr

structure ProcessOutput where
  status : ExitStatus
  stdout : String
  stderr : String
  deriving DecidableEq, Repr

/-- Result of `Command::output()`: `Except.error` is a failed spawn. -/
abbrev SpawnResult := Except String ProcessOutput

/-! ## Errors (`ErrorKind` / `Error` of `video.rs`) -/

inductive ErrorKind where
  | NoAvailableVideoStream
  | VersionCheckCommandProcessFailed (msg : String)
  | VersionOutputNotMatched (stdout : String)
  | VersionNotValidInteger (s : String)
  | NotSupportedCommandVersion (major minor : Nat)
  | FfmpegCommandProcessFailed (msg : String)
  | FfmpegCommandExitAbnormally (status : ExitStatus) (stderr : String)
  | AbAv1CommandProcessFailed (path : String) (msg : String)
  | InvalidAbAv1Output (path : String) (stdout : String)
  | UnknownAbAv1ErrorMessage (path : String) (stderr : String)
  deriving DecidableEq, Repr

structure Error where
  kind : ErrorKind
  deriving DecidableEq, Repr

/-! ## The program's regexes

Each compiled regex of `video.rs` is embedded as an executable matcher over
the character list of the haystack.  All four patterns are anchored (three
by `^`, one by `$`), so `Regex::captures` / `Regex::is_match` reduce to the
positional matchers below; where a greedy subpattern is committed (its
follower cannot start with a character the class accepts), maximal munch is
used, and where genuine backtracking is possible (`(\d+).\d\b` in the
`ab-av1` version pattern) the backtracking is explicit. -/

/-- Match a literal, returning the rest. -/
def dropLit : List Char → List Char → Option (List Char)
  | [], cs => some cs
  | l :: ls, c :: cs => if c = l then dropLit ls cs else none
  | _ :: _, [] => none

/-- Match `\s+` (maximal munch; used only where the following pattern
element cannot match a whitespace character). -/
def dropSpaces1 (cs : List Char) : Option (List Char) :=
  match cs with
  | c :: rest => if isSpaceCh c then some (rest.dropWhile isSpaceCh) else none
  | [] => none

/-- `\b` at a position whose left neighbour is a word character: holds at
end of haystack or before a non-word character. -/
def wordBoundaryAfter : List Char → Bool
  | [] => true
  | c :: _ => !isWordCh c

/-- `FFMPEG_STDOUT_RETRIEVE_VERSION_REGEX`:
`^ffmpeg\s+version\s+(\d+)\.(\d+)\b`, returning the two captures.
Both `(\d+)` groups are committed: the first is followed by `\.` and the
second by `\b` with a digit on its left, so only the maximal digit runs can
take part in a match. -/
def ffmpeg_version_regex_captures (s : String) : Option (String × String) :=
  match dropLit "ffmpeg".toList s.toList with
  | none => none
  | some cs =>
  match dropSpaces1 cs with
  | none => none
  | some cs =>
  match dropLit "version".toList cs with
  | none => none
  | some cs =>
  match dropSpaces1 cs with
  | none => none
  | some cs =>
    let (d1, cs) := spanDigits cs
    if d1 = [] then none
    else
      match dropLit ['.'] cs with
      | none => none
      | some cs =>
        let (d2, rest) := spanDigits cs
        if d2 = [] then none
        else if wordBoundaryAfter rest then some (String.mk d1, String.mk d2)
        else none

/-- `.\d\b` (any character but newline, a digit, a word boundary) at the
start of the given position. -/
def abAv1TailOk : List Char → Bool
  | c :: d :: rest => c ≠ '\n' && isDigitCh d && wordBoundaryAfter rest
  | _ => false

/-- Backtracking matcher for the tail `(\d+).\d\b` of the `ab-av1` version
regex, entered with at least one digit consumed into the group (`g2rev`,
reversed).  Greedily extends the group, retreating one digit at a time on
failure; returns the second capture. -/
def abAv1Minor (g2rev : List Char) : List Char → Option (List Char)
  | [] => none
  | c :: cs =>
    if isDigitCh c then
      match abAv1Minor (c :: g2rev) cs with
      | some g2 => some g2
      | none => if abAv1TailOk (c :: cs) then some g2rev.reverse else none
    else if abAv1TailOk (c :: cs) then some g2rev.reverse else none

/-- `AB_AV1_STDOUT_RETRIEVE_VERSION_REGEX`: `^ab-av1\s+(\d+)\.(\d+).\d\b`
(note: the third separator is an unescaped `.`, and the patch part is a
single `\d` followed by `\b`), returning the two captures. -/
def ab_av1_version_regex_captures (s : String) : Option (String × String) :=
  match dropLit "ab-av1".toList s.toList with
  | none => none
  | some cs =>
  match dropSpaces1 cs with
  | none => none
  | some cs =>
    let (d1, cs) := spanDigits cs
    if d1 = [] then none
    else
      match dropLit ['.'] cs with
      | none => none
      | some t =>
        match t with
        | c :: cs2 =>
          if isDigitCh c then
            match abAv1Minor [c] cs2 with
            | some g2 => some (String.mk d1, String.mk g2)
            | none => none
          else none
        | [] => none

/-- `AB_AV1_STDOUT_RETRIEVE_CRF_REGEX`:
`^\s*crf\s+(\d+)\s+VMAF\s+(\d+(?:\.\d+)?)`, returning the two captures.
Every greedy element is committed (its follower cannot begin with a
character of its class), except the final optional fraction, which the
matcher prefers when a `.` and a digit follow. -/
def ab_av1_crf_regex_captures (s : String) : Option (String × String) :=
  let cs := s.toList.dropWhile isSpaceCh
  match dropLit "crf".toList cs with
  | none => none
  | some cs =>
  match dropSpaces1 cs with
  | none => none
  | some cs =>
    let (d1, cs) := spanDigits cs
    if d1 = [] then none
    else
      match dropSpaces1 cs with
      | none => none
      | some cs =>
      match dropLit "VMAF".toList cs with
      | none => none
      | some cs =>
      match dropSpaces1 cs with
      | none => none
      | some cs =>
        let (d2, rest) := spanDigits cs
        if d2 = [] then none
        else
          match rest with
          | '.' :: r2 =>
            let (d3, _) := spanDigits r2
            if d3 = [] then some (String.mk d1, String.mk d2)
            else some (String.mk d1, String.mk (d2 ++ '.' :: d3))
          | _ => some (String.mk d1, String.mk d2)

/-- `AB_AV1_STDERR_CHECK_GOOD_CRF_NOT_FOUND_REGEX`:
`Failed to find a suitable crf\s*$` — the haystack ends with the literal
followed only by whitespace. -/
def ab_av1_crf_not_found_match (s : String) : Bool :=
  ("Failed to find a suitable crf".toList.reverse).isPrefixOf
    (s.toList.reverse.dropWhile isSpaceCh)

/-! ## `check_command` -/

/-- `check_command` of `video.rs`.  The spawned process's result is passed
in as `spawn`; the regex parameter is abstracted by its capture function
(returning the first two capture groups, as `caps[1]` / `caps[2]`). -/
def check_command (expected_major_version min_minor_version : Nat)
    (spawn : SpawnResult) (re : String → Option (String × String)) :
    Except Error Unit :=
  match spawn with
  | Except.error err => Except.error ⟨ErrorKind.VersionCheckCommandProcessFailed err⟩
  | Except.ok output =>
    let stdout := output.stdout
    match re stdout with
    | none => Except.error ⟨ErrorKind.VersionOutputNotMatched stdout⟩
    | some (c1, c2) =>
      match parse_number parse_u8 c1 ⟨ErrorKind.VersionNotValidInteger c1⟩ with
      | Except.error e => Except.error e
      | Except.ok major_version =>
        match parse_number parse_u8 c2 ⟨ErrorKind.VersionNotValidInteger c2⟩ with
        | Except.error e => Except.error e
        | Except.ok minor_version =>
          if expected_major_version ≠ major_version ∨ minor_version < min_minor_version then
            Except.error ⟨ErrorKind.NotSupportedCommandVersion major_version minor_version⟩
          else Except.ok ()

/-! ## ffprobe data model (`ffprobe::Stream` / `ffprobe::Format`, the
fields `video.rs` reads) -/

structure Stream where
  codec_type : Option String
  width : Option Int
  height : Option Int
  duration : Option String
  deriving DecidableEq, Repr

structure Format where
  duration : Option String
  deriving DecidableEq, Repr

structure FfProbe where
  format : Format
  streams : List Stream
  deriving DecidableEq, Repr

/-- `get_first_stream_for_codec_type`: first stream whose `codec_type`
equals the given one. -/
def get_first_stream_for_codec_type (codec_type : String) (streams : List Stream) :
    Option Stream :=
  streams.find? (fun s => s.codec_type = some codec_type)

def get_first_video_stream (streams : List Stream) : Option Stream :=
  get_first_stream_for_codec_type "video" streams

def get_first_audio_stream (streams : List Stream) : Option Stream :=
  get_first_stream_for_codec_type "audio" streams

/-- `get_stream_duration`: the stream-level duration string, if it parses
as `f64`; otherwise the container-level duration string, if it parses;
otherwise `none`. -/
def get_stream_duration (stream : Stream) (format : Format) : Option F64 :=
  match stream.duration.bind rustParseF64 with
  | some duration => some duration
  | none =>
    match format.duration.bind rustParseF64 with
    | some duration => some duration
    | none => none

/-! ## Input analysis -/

structure InputFile where
  path : String
  width : Int
  height : Int
  alternative_null_audio_duration : Option F64
  deriving DecidableEq, Repr

/-- `analyze_video_file_impl`. -/
def analyze_video_file_impl (path : String) (format : Format) (streams : List Stream) :
    Option InputFile :=
  match get_first_video_stream streams with
  | none => none
  | some video_stream =>
    match video_stream.width, video_stream.height with
    | some width, some height =>
      if width < 0 ∨ height < 0 then none
      else
        -- an audio stream present ⇒ no substitute silence; otherwise the
        -- resolved duration is required (`let … else return None` in the source)
        match get_first_audio_stream streams with
        | some _ => some ⟨path, width, height, none⟩
        | none =>
          match get_stream_duration video_stream format with
          | none => none
          | some video_duration => some ⟨path, width, height, some video_duration⟩
    | _, _ => none

/-- `analyze_video_file`: probe the file (abstracted by `probe`), then
analyze; a probe failure drops the input. -/
def analyze_video_file (probe : String → Except String FfProbe) (path : String) :
    Option InputFile :=
  match probe path with
  | Except.error _ => none
  | Except.ok info => analyze_video_file_impl path info.format info.streams

/-! ## Filter graph builder (`get_avfilter_code`) -/

/-- Per-axis target width: maximum over all inputs (the source asserts the
list is non-empty; the default is never reached under that assumption). -/
def target_width_of (input_files : List InputFile) : Int :=
  ((input_files.map (fun f => f.width)).max?).getD 0

def target_height_of (input_files : List InputFile) : Int :=
  ((input_files.map (fun f => f.height)).max?).getD 0

/-- `format!("scale={:}:{:}", target_width, target_height)`. -/
def scale_code (target_width target_height : Int) : String :=
  "scale=" ++ toString target_width ++ ":" ++ toString target_height

/-- The letterboxing filter of the third branch. -/
def scale_pad_code (target_width target_height : Int) : String :=
  scale_code target_width target_height
    ++ ":force_original_aspect_ratio=decrease,pad="
    ++ toString target_width ++ ":" ++ toString target_height
    ++ ":(ow-iw)/2:(oh-ih)/2"

/-- The `part_video_filter_code` decision of `get_avfilter_code`. -/
def part_video_filter_code (target_width target_height : Int) (input_file : InputFile) :
    String :=
  if input_file.width = target_width ∧ input_file.height = target_height then
    "null"
  else if input_file.width * target_height = input_file.height * target_width then
    scale_code target_width target_height
  else
    scale_pad_code target_width target_height

/-- `format!("[{0:}:v:0]{1:}[v{0:}];", index, part_video_filter_code)`. -/
def video_statement (target_width target_height : Int) (index : Nat)
    (input_file : InputFile) : String :=
  "[" ++ toString index ++ ":v:0]"
    ++ part_video_filter_code target_width target_height input_file
    ++ "[v" ++ toString index ++ "];"

/-- The audio branch statement: `anullsrc=d={:}[a{:}];` for an input whose
analysis recorded a substitute silence duration, `[{0:}:a:0]anull[a{0:}];`
otherwise. -/
def audio_statement (index : Nat) (input_file : InputFile) : String :=
  match input_file.alternative_null_audio_duration with
  | some alternative_null_audio_duration =>
    "anullsrc=d=" ++ f64Display alternative_null_audio_duration
      ++ "[a" ++ toString index ++ "];"
  | none => "[" ++ toString index ++ ":a:0]anull[a" ++ toString index ++ "];"

/-- Both statements one input appends to `filter_code`. -/
def input_part_code (target_width target_height : Int) (index : Nat)
    (input_file : InputFile) : String :=
  video_statement target_width target_height index input_file
    ++ audio_statement index input_file

/-- The `[v{0:}][a{0:}]` pair appended to `concat_input_part_filter_code`. -/
def concat_tag (index : Nat) : String :=
  "[v" ++ toString index ++ "]" ++ "[a" ++ toString index ++ "]"

/-- `get_avfilter_code`: the loop accumulates the per-input statements and
the concat input tags, then appends the final `concat` statement. -/
def get_avfilter_code (input_files : List InputFile) : String :=
  let target_width := target_width_of input_files
  let target_height := target_height_of input_files
  let acc :=
    input_files.enum.foldl
      (fun (acc : String × String) (p : Nat × InputFile) =>
        (acc.1 ++ input_part_code target_width target_height p.1 p.2,
         acc.2 ++ concat_tag p.1))
      ("", "")
  acc.1 ++ acc.2
    ++ "concat=n=" ++ toString input_files.length ++ ":v=1:a=1[vout][aout]"

/-! ## Quality parameter search (`get_best_crf_impl`) -/

def MAX_CRF : Nat := 55

/-- `256 ≤ a + b`: the 8-bit addition `a + b` overflows (panics in a debug
build, wraps in a release build). -/
def u8AddOverflows (a b : Nat) : Bool :=
  decide (256 ≤ a + b)

/-- The argument list of the `ab-av1 crf-search` invocation.  `min_crf` and
`MAX_CRF` are `u8` in the source; the floor argument is `min_crf + 1`
computed in `u8`, hence the wrap-around `% 256`. -/
def ab_av1_crf_search_args (enough_vmaf min_crf : Nat) (video_path : String) :
    List String :=
  ["crf-search",
   "--min-vmaf", toString enough_vmaf,
   "--min-crf", toString ((min_crf + 1) % 256),
   "--max-crf", toString MAX_CRF,
   "--max-encoded-percent", "100",
   "--enc", "fps_mode=passthrough",
   "--enc", "dn",
   "--input", video_path]

/-- `get_best_crf_impl`; the spawn of the assembled `ab-av1` command is
abstracted by `spawn`, a function of the argument list. -/
def get_best_crf_impl (spawn : List String → SpawnResult) (video_path : String)
    (enough_vmaf min_crf : Nat) : Except Error (Nat × Option F64) :=
  match spawn (ab_av1_crf_search_args enough_vmaf min_crf video_path) with
  | Except.error err =>
    Except.error ⟨ErrorKind.AbAv1CommandProcessFailed video_path err⟩
  | Except.ok output =>
    if output.status.success then
      let stdout := output.stdout
      match ab_av1_crf_regex_captures stdout with
      | none => Except.error ⟨ErrorKind.InvalidAbAv1Output video_path stdout⟩
      | some (c1, c2) =>
        match parse_number parse_u8 c1 ⟨ErrorKind.InvalidAbAv1Output video_path stdout⟩ with
        | Except.error e => Except.error e
        | Except.ok crf =>
          match parse_number rustParseF64 c2
              ⟨ErrorKind.InvalidAbAv1Output video_path stdout⟩ with
          | Except.error e => Except.error e
          | Except.ok vmaf => Except.ok (crf, some vmaf)
    else
      let stderr := output.stderr
      if ¬ ab_av1_crf_not_found_match stderr then
        Except.error ⟨ErrorKind.UnknownAbAv1ErrorMessage video_path stderr⟩
      else
        -- if failed with not found good crf, then fall back to the floor
        Except.ok (min_crf, none)

/-! ## Encode orchestration (`encode_best_effort_impl`) -/

/-- `Iterator::max_by_key` over a non-empty list: the fold keeps the
incumbent only when its key is strictly greater, so among equal maximal
keys the last element wins (`max_by` returns the last maximum). -/
def max_by_key_last (key : InputFile → Int) (head : InputFile)
    (tail : List InputFile) : InputFile :=
  tail.foldl (fun acc x => if key acc ≤ key x then x else acc) head

/-- The external world of one `encode_best_effort_impl` run: the results of
the five kinds of external invocation the pipeline performs. -/
structure Env where
  ffmpeg_version_spawn : SpawnResult
  ab_av1_version_spawn : SpawnResult
  probe : String → Except String FfProbe
  ab_av1_crf_spawn : List String → SpawnResult
  ffmpeg_encode_spawn : List String → SpawnResult

/-- The `ffmpeg` encode invocation's argument list (assembled exactly as in
the source; the spawn of this command is abstracted by
`Env.ffmpeg_encode_spawn`). -/
def ffmpeg_encode_cmd_args (input_files : List InputFile) (best_crf : Nat)
    (output_video_path : String) : List String :=
  ["-y"]
    ++ input_files.foldl (fun acc f => acc ++ ["-i", f.path]) []
    ++ (if input_files.length ≠ 1 then
          ["-filter_complex", get_avfilter_code input_files,
           "-map", "[vout]", "-map", "[aout]"]
        else [])
    ++ ["-c:v", "libsvtav1",
        "-crf", toString best_crf,
        "-pix_fmt", "yuv420p10le",
        "-preset", "8"]
    ++ [output_video_path]

/-- `encode_best_effort_impl`: version checks, analysis of every input,
`NoAvailableVideoStream` when nothing survives, CRF search on the
largest-area input, then interpretation of the encoder run. -/
def encode_best_effort_impl (env : Env) (input_video_paths : List String)
    (output_video_path : String) (enough_vmaf min_crf : Nat) :
    Except Error (Nat × Option F64) :=
  match check_command 6 0 env.ffmpeg_version_spawn ffmpeg_version_regex_captures with
  | Except.error e => Except.error e
  | Except.ok _ =>
  match check_command 0 7 env.ab_av1_version_spawn ab_av1_version_regex_captures with
  | Except.error e => Except.error e
  | Except.ok _ =>
    let input_files := input_video_paths.filterMap (analyze_video_file env.probe)
    match input_files with
    | [] => Except.error ⟨ErrorKind.NoAvailableVideoStream⟩
    | f0 :: fs =>
      let best_input_file :=
        max_by_key_last (fun input_file => input_file.width * input_file.height) f0 fs
      match get_best_crf_impl env.ab_av1_crf_spawn best_input_file.path
          enough_vmaf min_crf with
      | Except.error e => Except.error e
      | Except.ok (best_crf, predicted_vmaf) =>
        match env.ffmpeg_encode_spawn
            (ffmpeg_encode_cmd_args input_files best_crf output_video_path) with
        | Except.error err =>
          Except.error ⟨ErrorKind.FfmpegCommandProcessFailed err⟩
        | Except.ok output =>
          if !output.status.success then
            Except.error ⟨ErrorKind.FfmpegCommandExitAbnormally output.status output.stderr⟩
          else
            Except.ok (best_crf, predicted_vmaf)

/-! ## Generic helper lemmas -/

theorem digit_not_space {c : Char} (h : isDigitCh c = true) : isSpaceCh c = false := by
  by_contra hs
  have hs' : isSpaceCh c = true := by
    cases h' : isSpaceCh c
    · exact absurd h' hs
    · rfl
  simp only [isSpaceCh, Bool.or_eq_true, decide_eq_true_eq] at hs'
  rcases hs' with ((((h' | h') | h') | h') | h') | h' <;> subst h' <;> simp [isDigitCh] at h

theorem digit_isWord {c : Char} (h : isDigitCh c = true) : isWordCh c = true := by
  simp only [isDigitCh, Bool.and_eq_true, decide_eq_true_eq] at h
  simp only [isWordCh, Char.isAlphanum, Char.isDigit, Bool.or_eq_true, decide_eq_true_eq]
  left; right
  simp only [Bool.and_eq_true, decide_eq_true_eq]
  exact h

theorem dropWhile_append_of_all {α} (p : α → Bool) {u : List α} (v : List α)
    (hu : ∀ c ∈ u, p c = true) : (u ++ v).dropWhile p = v.dropWhile p := by
  induction u with
  | nil => rfl
  | cons c u ih =>
    have hc := hu c (List.mem_cons_self c u)
    simp only [List.cons_append, List.dropWhile_cons, hc, if_true]
    exact ih (fun x hx => hu x (List.mem_cons_of_mem c hx))

theorem dropWhile_eq_self_of_head {α} (p : α → Bool) {v : List α}
    (hv : ∀ c, v.head? = some c → p c = false) : v.dropWhile p = v := by
  cases v with
  | nil => rfl
  | cons c v =>
    have hc := hv c rfl
    simp [List.dropWhile_cons, hc]

theorem takeWhile_append_of_all {α} (p : α → Bool) {u : List α} (v : List α)
    (hu : ∀ c ∈ u, p c = true) (hv : ∀ c, v.head? = some c → p c = false) :
    (u ++ v).takeWhile p = u := by
  induction u with
  | nil => exact dropWhile_eq_self_of_head p hv ▸ (by
      cases v with
      | nil => rfl
      | cons c v => simp [List.takeWhile_cons, hv c rfl])
  | cons c u ih =>
    have hc := hu c (List.mem_cons_self c u)
    simp only [List.cons_append, List.takeWhile_cons, hc, if_true]
    rw [ih (fun x hx => hu x (List.mem_cons_of_mem c hx))]

theorem head_dropWhile_false {α} (p : α → Bool) {l : List α} {c : α}
    (h : (l.dropWhile p).head? = some c) : p c = false := by
  induction l with
  | nil => simp at h
  | cons x l ih =>
    by_cases hx : p x = true
    · simp only [List.dropWhile_cons, hx, if_true] at h
      exact ih h
    · have hx' : p x = false := by
        cases h' : p x
        · rfl
        · exact absurd h' hx
      simp only [List.dropWhile_cons, hx', Bool.false_eq_true, if_false, List.head?_cons,
        Option.some.injEq] at h
      exact h ▸ hx'

/-- Concatenation of a list of strings (used to describe the accumulating
loop of `get_avfilter_code`). -/
def strJoin : List String → String
  | [] => ""
  | s :: rest => s ++ strJoin rest

theorem strJoin_append (a b : List String) :
    strJoin (a ++ b) = strJoin a ++ strJoin b := by
  induction a with
  | nil => simp [strJoin, String.empty_append]
  | cons s rest ih => simp [strJoin, ih, String.append_assoc]

/-! ## Structure of the built filter program -/

theorem avfilter_foldl_eq (tw th : Int) (l : List (Nat × InputFile)) :
    ∀ a1 a2 : String,
      l.foldl
        (fun (acc : String × String) (p : Nat × InputFile) =>
          (acc.1 ++ input_part_code tw th p.1 p.2, acc.2 ++ concat_tag p.1))
        (a1, a2)
      = (a1 ++ strJoin (l.map fun p => input_part_code tw th p.1 p.2),
         a2 ++ strJoin (l.map fun p => concat_tag p.1)) := by
  induction l with
  | nil => intro a1 a2; simp [strJoin, String.append_empty]
  | cons p rest ih =>
    intro a1 a2
    simp only [List.foldl_cons, List.map_cons, strJoin]
    rw [ih]
    simp [String.append_assoc]

theorem get_avfilter_code_eq (l : List InputFile) :
    get_avfilter_code l
      = strJoin (l.enum.map fun p =>
            input_part_code (target_width_of l) (target_height_of l) p.1 p.2)
        ++ strJoin (l.enum.map fun p => concat_tag p.1)
        ++ ("concat=n=" ++ toString l.length ++ ":v=1:a=1[vout][aout]") := by
  simp only [get_avfilter_code, avfilter_foldl_eq]
  simp [String.empty_append, String.append_assoc]

theorem strJoin_mem_split {α} (g : α → String) {x : α} {l : List α} (h : x ∈ l) :
    ∃ pre post, strJoin (l.map g) = pre ++ g x ++ post := by
  obtain ⟨s, t, rfl⟩ := List.append_of_mem h
  refine ⟨strJoin (s.map g), strJoin (t.map g), ?_⟩
  simp [strJoin_append, strJoin, String.append_assoc]

/-- Every input's combined (video + audio) statement pair appears verbatim
in the built filter program. -/
theorem avfilter_contains_input_part {l : List InputFile} {i : Nat} {f : InputFile}
    (h : (i, f) ∈ l.enum) :
    ∃ pre post, get_avfilter_code l
      = pre ++ input_part_code (target_width_of l) (target_height_of l) i f ++ post := by
  obtain ⟨pre, post, hsplit⟩ :=
    strJoin_mem_split
      (fun p => input_part_code (target_width_of l) (target_height_of l) p.1 p.2) h
  refine ⟨pre, post ++ strJoin (l.enum.map fun p => concat_tag p.1)
      ++ ("concat=n=" ++ toString l.length ++ ":v=1:a=1[vout][aout]"), ?_⟩
  rw [get_avfilter_code_eq, hsplit]
  simp [String.append_assoc]

/-! ## Distinctness of the three video-normalization filters -/

theorem scale_code_ne_null (tw th : Int) : scale_code tw th ≠ "null" := by
  intro h
  have hl := congrArg String.length h
  simp only [scale_code, String.length_append] at hl
  have h6 : ("scale=" : String).length = 6 := by decide
  have h1 : (":" : String).length = 1 := by decide
  have h4 : ("null" : String).length = 4 := by decide
  omega

theorem scale_pad_code_ne_null (tw th : Int) : scale_pad_code tw th ≠ "null" := by
  intro h
  have hl := congrArg String.length h
  simp only [scale_pad_code, scale_code, String.length_append] at hl
  have h6 : ("scale=" : String).length = 6 := by decide
  have h1 : (":" : String).length = 1 := by decide
  have h38 : (":force_original_aspect_ratio=decrease,pad=" : String).length = 42 := by decide
  have h20 : (":(ow-iw)/2:(oh-ih)/2" : String).length = 20 := by decide
  have h4 : ("null" : String).length = 4 := by decide
  omega

theorem scale_pad_code_ne_scale_code (tw th : Int) :
    scale_pad_code tw th ≠ scale_code tw th := by
  intro h
  have hl := congrArg String.length h
  simp only [scale_pad_code, scale_code, String.length_append] at hl
  have h38 : (":force_original_aspect_ratio=decrease,pad=" : String).length = 42 := by decide
  have h20 : (":(ow-iw)/2:(oh-ih)/2" : String).length = 20 := by decide
  omega

/-- **C4**: in every filter-graph build over two or more analyzed inputs,
with `target_width`/`target_height` the per-axis maxima, each input's
emitted video-normalization step (which appears verbatim in the built
program) is: the identity filter `null` exactly when the input's dimensions
equal the target; else a pure uniform rescale to the target exactly when
`width * target_height = height * target_width` (integer
cross-multiplication); else a rescale with
`force_original_aspect_ratio=decrease` followed by a symmetric centered pad
to the target. -/
theorem claim_C4 (input_files : List InputFile) (h2 : 2 ≤ input_files.length)
    (i : Nat) (f : InputFile) (hmem : (i, f) ∈ input_files.enum) :
    (∃ pre post, get_avfilter_code input_files
        = pre ++ video_statement (target_width_of input_files)
            (target_height_of input_files) i f ++ post)
    ∧ (part_video_filter_code (target_width_of input_files)
          (target_height_of input_files) f = "null"
        ↔ (f.width = target_width_of input_files
            ∧ f.height = target_height_of input_files))
    ∧ (¬ (f.width = target_width_of input_files
          ∧ f.height = target_height_of input_files) →
        (part_video_filter_code (target_width_of input_files)
            (target_height_of input_files) f
          = scale_code (target_width_of input_files) (target_height_of input_files)
        ↔ f.width * target_height_of input_files
            = f.height * target_width_of input_files))
    ∧ (¬ (f.width = target_width_of input_files
          ∧ f.height = target_height_of input_files) →
        f.width * target_height_of input_files
          ≠ f.height * target_width_of input_files →
        part_video_filter_code (target_width_of input_files)
            (target_height_of input_files) f
          = scale_pad_code (target_width_of input_files)
              (target_height_of input_files)) := by
  have _ := h2
  refine ⟨?_, ?_, ?_, ?_⟩
  · obtain ⟨pre, post, hsplit⟩ := avfilter_contains_input_part hmem
    refine ⟨pre, audio_statement i f ++ post, ?_⟩
    rw [hsplit]
    simp [input_part_code, String.append_assoc]
  · by_cases hc1 : f.width = target_width_of input_files
        ∧ f.height = target_height_of input_files
    · simp [part_video_filter_code, hc1]
    · simp only [part_video_filter_code, if_neg hc1]
      by_cases hc2 : f.width * target_height_of input_files
          = f.height * target_width_of input_files
      · simp only [if_pos hc2]
        exact iff_of_false (scale_code_ne_null _ _) hc1
      · simp only [if_neg hc2]
        exact iff_of_false (scale_pad_code_ne_null _ _) hc1
  · intro hc1
    simp only [part_video_filter_code, if_neg hc1]
    by_cases hc2 : f.width * target_height_of input_files
        = f.height * target_width_of input_files
    · simp [if_pos hc2, hc2]
    · simp only [if_neg hc2]
      exact iff_of_false (scale_pad_code_ne_scale_code _ _) hc2
  · intro hc1 hc2
    simp [part_video_filter_code, if_neg hc1, if_neg hc2]

/-- Concrete instance of C4: in the two-input build `[300×100, 150×50]`
(equal aspect ratio, different size), the second input's emitted statement
appears in the program. -/
theorem claim_C4_witness :
    ∃ pre post,
      get_avfilter_code [⟨"0.mp4", 300, 100, none⟩, ⟨"1.mp4", 150, 50, none⟩]
        = pre ++ video_statement
            (target_width_of [⟨"0.mp4", 300, 100, none⟩, ⟨"1.mp4", 150, 50, none⟩])
            (target_height_of [⟨"0.mp4", 300, 100, none⟩, ⟨"1.mp4", 150, 50, none⟩])
            1 ⟨"1.mp4", 150, 50, none⟩ ++ post :=
  (claim_C4 [⟨"0.mp4", 300, 100, none⟩, ⟨"1.mp4", 150, 50, none⟩] (by decide)
    1 ⟨"1.mp4", 150, 50, none⟩ (by decide)).1

/-- **C8**: in the built filter program, every input lacking its own audio
track (analysis recorded a substitute silence duration `d`) contributes the
statement `anullsrc=d=<d>[a<i>];`, and every input with its own audio track
contributes the pass-through statement `[<i>:a:0]anull[a<i>];`. -/
theorem claim_C8 (input_files : List InputFile) (i : Nat) (f : InputFile)
    (hmem : (i, f) ∈ input_files.enum) :
    (∀ d, f.alternative_null_audio_duration = some d →
      ∃ pre post, get_avfilter_code input_files
        = pre ++ ("anullsrc=d=" ++ f64Display d ++ "[a" ++ toString i ++ "];") ++ post)
    ∧ (f.alternative_null_audio_duration = none →
      ∃ pre post, get_avfilter_code input_files
        = pre ++ ("[" ++ toString i ++ ":a:0]anull[a" ++ toString i ++ "];") ++ post) := by
  obtain ⟨pre, post, hsplit⟩ := avfilter_contains_input_part hmem
  constructor
  · intro d hd
    refine ⟨pre ++ video_statement (target_width_of input_files)
        (target_height_of input_files) i f, post, ?_⟩
    rw [hsplit]
    simp [input_part_code, audio_statement, hd, String.append_assoc]
  · intro hd
    refine ⟨pre ++ video_statement (target_width_of input_files)
        (target_height_of input_files) i f, post, ?_⟩
    rw [hsplit]
    simp [input_part_code, audio_statement, hd, String.append_assoc]

/-- Concrete instance of C8: the audio-less first input of duration `3.5`
contributes `anullsrc=d=3.5[a0];` to the program. -/
theorem claim_C8_witness :
    ∃ pre post,
      get_avfilter_code
          [⟨"0.mp4", 300, 100, some (F64.finite (mkRat 7 2))⟩, ⟨"1.mp4", 300, 100, none⟩]
        = pre ++ ("anullsrc=d=" ++ f64Display (F64.finite (mkRat 7 2))
            ++ "[a" ++ toString 0 ++ "];") ++ post :=
  (claim_C8 [⟨"0.mp4", 300, 100, some (F64.finite (mkRat 7 2))⟩, ⟨"1.mp4", 300, 100, none⟩]
    0 ⟨"0.mp4", 300, 100, some (F64.finite (mkRat 7 2))⟩ (by decide)).1
    (F64.finite (mkRat 7 2)) rfl

/-! ## C2: reference selection for the quality search -/

/-- Splits the input list around the element `Iterator::max_by_key` picks:
everything before it has key at most the selected key, everything after it
has a strictly smaller key — i.e. the selected element is the **last**
maximal one. -/
theorem max_by_key_last_split (key : InputFile → Int) (f0 : InputFile)
    (fs : List InputFile) :
    ∃ a b, f0 :: fs = a ++ max_by_key_last key f0 fs :: b
      ∧ (∀ f ∈ a, key f ≤ key (max_by_key_last key f0 fs))
      ∧ (∀ f ∈ b, key f < key (max_by_key_last key f0 fs)) := by
  induction fs generalizing f0 with
  | nil => exact ⟨[], [], rfl, by simp, by simp⟩
  | cons x fs ih =>
    by_cases hle : key f0 ≤ key x
    · have hstep : max_by_key_last key f0 (x :: fs) = max_by_key_last key x fs := by
        simp [max_by_key_last, hle]
      rw [hstep]
      obtain ⟨a, b, hdecomp, ha, hb⟩ := ih x
      have hxle : key x ≤ key (max_by_key_last key x fs) := by
        have hx : x ∈ a ++ max_by_key_last key x fs :: b := by
          rw [← hdecomp]; exact List.mem_cons_self x fs
        rcases List.mem_append.mp hx with hx | hx
        · exact ha x hx
        · rcases List.mem_cons.mp hx with hx | hx
          · exact le_of_eq (congrArg key hx)
          · exact le_of_lt (hb x hx)
      refine ⟨f0 :: a, b, ?_, ?_, hb⟩
      · rw [List.cons_append, ← hdecomp]
      · intro f hf
        rcases List.mem_cons.mp hf with hf | hf
        · rw [hf]; exact le_trans hle hxle
        · exact ha f hf
    · have hlt : key x < key f0 := lt_of_not_le hle
      have hstep : max_by_key_last key f0 (x :: fs) = max_by_key_last key f0 fs := by
        simp [max_by_key_last, hle]
      rw [hstep]
      obtain ⟨a, b, hdecomp, ha, hb⟩ := ih f0
      cases a with
      | nil =>
        rw [List.nil_append] at hdecomp
        injection hdecomp with h1 h2
        refine ⟨[], x :: fs, ?_, by simp, ?_⟩
        · rw [List.nil_append, ← h1]
        · intro f hf
          rcases List.mem_cons.mp hf with hf | hf
          · rw [hf, ← h1]; exact hlt
          · exact hb f (h2 ▸ hf)
      | cons g a' =>
        rw [List.cons_append] at hdecomp
        injection hdecomp with h1 h2
        have hf0le : key f0 ≤ key (max_by_key_last key f0 fs) := by
          apply ha
          rw [h1]
          exact List.mem_cons_self g a'
        refine ⟨f0 :: x :: a', b, ?_, ?_, hb⟩
        · rw [List.cons_append, List.cons_append, ← h2]
        · intro f hf
          rcases List.mem_cons.mp hf with hf | hf
          · rw [hf]; exact hf0le
          · rcases List.mem_cons.mp hf with hf' | hf'
            · rw [hf']; exact le_of_lt (lt_of_lt_of_le hlt hf0le)
            · exact ha f (List.mem_cons_of_mem g hf')

/-- **C2 (amended)**: over every non-empty analyzed-input list, the input
selected as the reference for the quality-parameter search has maximal
`width * height`, and among the inputs tying for the maximum it is the
**last** one in original input order (everything after the selected element
has strictly smaller area). -/
theorem claim_C2_amended (f0 : InputFile) (fs : List InputFile) :
    (∀ f ∈ f0 :: fs,
      f.width * f.height
        ≤ (max_by_key_last (fun g => g.width * g.height) f0 fs).width
          * (max_by_key_last (fun g => g.width * g.height) f0 fs).height)
    ∧ ∃ a b,
        f0 :: fs = a ++ max_by_key_last (fun g => g.width * g.height) f0 fs :: b
        ∧ ∀ f ∈ b,
            f.width * f.height
              < (max_by_key_last (fun g => g.width * g.height) f0 fs).width
                * (max_by_key_last (fun g => g.width * g.height) f0 fs).height := by
  obtain ⟨a, b, hdecomp, ha, hb⟩ :=
    max_by_key_last_split (fun g => g.width * g.height) f0 fs
  constructor
  · intro f hf
    rw [hdecomp] at hf
    rcases List.mem_append.mp hf with hf | hf
    · exact ha f hf
    · rcases List.mem_cons.mp hf with hf | hf
      · rw [hf]
      · exact le_of_lt (hb f hf)
  · exact ⟨a, b, hdecomp, hb⟩

/-- Probe results for the C2 counterexample run: two inputs of equal area
`12` (4×3 then 3×4), both with an audio stream. -/
def probe_c2 : String → Except String FfProbe := fun path =>
  if path = "a.mp4" then
    Except.ok ⟨⟨some "1"⟩,
      [⟨some "video", some 4, some 3, some "1"⟩, ⟨some "audio", none, none, none⟩]⟩
  else if path = "b.mp4" then
    Except.ok ⟨⟨some "1"⟩,
      [⟨some "video", some 3, some 4, some "1"⟩, ⟨some "audio", none, none, none⟩]⟩
  else Except.error "no such file"

def env_c2 : Env :=
  { ffmpeg_version_spawn := Except.ok ⟨⟨true⟩, "ffmpeg version 6.0", ""⟩
    ab_av1_version_spawn := Except.ok ⟨⟨true⟩, "ab-av1 0.7.9", ""⟩
    probe := probe_c2
    ab_av1_crf_spawn := fun _ => Except.error "spawn failed"
    ffmpeg_encode_spawn := fun _ => Except.error "unused" }

/-- **C2 counterexample**: both inputs survive analysis with equal
`width * height`; the claim says the first tying input (`a.mp4`) is the
search reference, but the pipeline's search runs on `b.mp4` — the *last*
tying input — as the error carrying the searched path reveals. -/
theorem claim_C2_counterexample :
    ["a.mp4", "b.mp4"].filterMap (analyze_video_file env_c2.probe)
        = [⟨"a.mp4", 4, 3, none⟩, ⟨"b.mp4", 3, 4, none⟩]
    ∧ (4 * 3 : Int) = 3 * 4
    ∧ encode_best_effort_impl env_c2 ["a.mp4", "b.mp4"] "out.mp4" 80 20
        = Except.error ⟨ErrorKind.AbAv1CommandProcessFailed "b.mp4" "spawn failed"⟩
    ∧ "b.mp4" ≠ "a.mp4" := by
  refine ⟨by decide, by decide, by rfl, by decide⟩

/-! ## C3: duration resolution -/

/-- **C3 counterexample**: `"inf"` parses (to a non-finite value) under
`str::parse::<f64>`, and a stream-level duration of `"inf"` *wins* over a
finite container-level duration, contradicting the claim that only a
finite parse wins. -/
theorem claim_C3_counterexample :
    rustParseF64 "inf" = some (F64.inf false)
    ∧ (∀ q : ℚ, F64.inf false ≠ F64.finite q)
    ∧ rustParseF64 "2.5" = some (F64.finite (mkRat 5 2))
    ∧ get_stream_duration ⟨some "video", some 1, some 1, some "inf"⟩ ⟨some "2.5"⟩
        = some (F64.inf false) :=
  ⟨by decide, fun _ h => F64.noConfusion h, by decide, by decide⟩

/-- **C3 (amended)**: duration resolution returns the stream-level duration
field when it parses as `f64` at all (finite or not); otherwise the
container-level duration field when that parses; otherwise the duration is
unresolved — and a no-audio input with unresolved duration is dropped by
analysis. -/
theorem claim_C3_amended (stream : Stream) (format : Format) :
    (∀ d v, stream.duration = some d → rustParseF64 d = some v →
        get_stream_duration stream format = some v)
    ∧ (stream.duration.bind rustParseF64 = none →
        ∀ d v, format.duration = some d → rustParseF64 d = some v →
          get_stream_duration stream format = some v)
    ∧ (stream.duration.bind rustParseF64 = none →
        format.duration.bind rustParseF64 = none →
        get_stream_duration stream format = none)
    ∧ (∀ path streams video_stream,
        get_first_video_stream streams = some video_stream →
        get_first_audio_stream streams = none →
        get_stream_duration video_stream format = none →
        analyze_video_file_impl path format streams = none) := by
  refine ⟨?_, ?_, ?_, ?_⟩
  · intro d v hd hv
    simp [get_stream_duration, hd, hv]
  · intro hnone d v hd hv
    simp [get_stream_duration, hnone, hd, hv]
  · intro h1 h2
    simp [get_stream_duration, h1, h2]
  · intro path streams video_stream hv hna hdur
    cases hw : video_stream.width with
    | none => simp [analyze_video_file_impl, hv, hw]
    | some w =>
      cases hh : video_stream.height with
      | none => simp [analyze_video_file_impl, hv, hw, hh]
      | some h =>
        by_cases hneg : w < 0 ∨ h < 0
        · simp [analyze_video_file_impl, hv, hw, hh, hneg]
        · simp [analyze_video_file_impl, hv, hw, hh, hneg, hna, hdur]

/-- Concrete instance of C3 (amended): a parsing stream-level duration is
returned. -/
theorem claim_C3_witness :
    get_stream_duration ⟨some "video", some 1, some 1, some "2.5"⟩ ⟨none⟩
      = some (F64.finite (mkRat 5 2)) :=
  (claim_C3_amended ⟨some "video", some 1, some 1, some "2.5"⟩ ⟨none⟩).1 "2.5"
    (F64.finite (mkRat 5 2)) rfl (by decide)

/-! ## C1: interpretation of a failing `ab-av1` run -/

/-- The "no suitable crf" matcher accepts exactly the strings that end with
the literal `Failed to find a suitable crf` followed only by whitespace
(the regex `Failed to find a suitable crf\s*$`). -/
theorem crf_not_found_iff (s : String) :
    ab_av1_crf_not_found_match s = true ↔
      ∃ a w : List Char,
        s.toList = a ++ "Failed to find a suitable crf".toList ++ w
        ∧ ∀ c ∈ w, isSpaceCh c = true := by
  unfold ab_av1_crf_not_found_match
  constructor
  · intro h
    obtain ⟨t, ht⟩ := List.isPrefixOf_iff_prefix.mp h
    set A := s.toList.reverse.takeWhile isSpaceCh with hA
    have hsplit : s.toList.reverse
        = A ++ ("Failed to find a suitable crf".toList.reverse ++ t) := by
      rw [ht]
      exact (List.takeWhile_append_dropWhile _ _).symm
    have hcs := congrArg List.reverse hsplit
    rw [List.reverse_reverse] at hcs
    refine ⟨t.reverse, A.reverse, ?_, ?_⟩
    · rw [hcs, List.reverse_append, List.reverse_append, List.reverse_reverse]
    · intro c hc
      rw [List.mem_reverse] at hc
      exact List.mem_takeWhile_imp hc
  · rintro ⟨a, w, hcs, hw⟩
    apply List.isPrefixOf_iff_prefix.mpr
    rw [hcs, List.reverse_append, List.reverse_append]
    rw [dropWhile_append_of_all isSpaceCh _ (fun c hc => hw c (List.mem_reverse.mp hc))]
    have hself :
        (("Failed to find a suitable crf".toList.reverse ++ a.reverse).dropWhile isSpaceCh)
          = "Failed to find a suitable crf".toList.reverse ++ a.reverse := by
      apply dropWhile_eq_self_of_head
      intro c hc
      have h' : ("Failed to find a suitable crf".toList.reverse ++ a.reverse).head?
          = some 'f' := rfl
      rw [h'] at hc
      injection hc with hc'
      rw [← hc']
      decide
    rw [hself]
    exact ⟨a.reverse, rfl⟩

/-- **C1**: when the `ab-av1 crf-search` process exits with failure status,
a stderr matching the fixed `Failed to find a suitable crf` pattern (the
text ends with that literal plus trailing whitespace) yields the non-error
outcome `(min_crf, none)` — the caller's floor with no achieved quality —
and any other stderr yields `UnknownAbAv1ErrorMessage` carrying the path
and the stderr text. -/
theorem claim_C1 (video_path : String) (enough_vmaf min_crf : Nat)
    (spawn : List String → SpawnResult) (output : ProcessOutput)
    (hspawn : spawn (ab_av1_crf_search_args enough_vmaf min_crf video_path)
        = Except.ok output)
    (hfail : output.status.success = false) :
    (ab_av1_crf_not_found_match output.stderr = true →
      get_best_crf_impl spawn video_path enough_vmaf min_crf
        = Except.ok (min_crf, none))
    ∧ (ab_av1_crf_not_found_match output.stderr = false →
      get_best_crf_impl spawn video_path enough_vmaf min_crf
        = Except.error ⟨ErrorKind.UnknownAbAv1ErrorMessage video_path output.stderr⟩)
    ∧ (∀ t : String, ab_av1_crf_not_found_match t = true ↔
        ∃ a w : List Char,
          t.toList = a ++ "Failed to find a suitable crf".toList ++ w
          ∧ ∀ c ∈ w, isSpaceCh c = true) := by
  refine ⟨?_, ?_, fun t => crf_not_found_iff t⟩
  · intro hmatch
    unfold get_best_crf_impl
    rw [hspawn]
    simp [hfail, hmatch]
  · intro hmatch
    unfold get_best_crf_impl
    rw [hspawn]
    simp [hfail, hmatch]

/-- Concrete instance of C1: a failing run whose stderr ends in the "not
found" message returns the caller's floor without an error. -/
theorem claim_C1_witness :
    get_best_crf_impl
        (fun _ => Except.ok ⟨⟨false⟩, "", "error: Failed to find a suitable crf\n"⟩)
        "v.mp4" 80 20
      = Except.ok (20, none) :=
  (claim_C1 "v.mp4" 80 20
    (fun _ => Except.ok ⟨⟨false⟩, "", "error: Failed to find a suitable crf\n"⟩)
    ⟨⟨false⟩, "", "error: Failed to find a suitable crf\n"⟩ rfl rfl).1 (by decide)

/-! ## C6: the version compatibility check -/

/-- **C6**: the check returns `Ok` exactly when the captured output matches
the pattern, both captured fields parse as `u8` integers, the major equals
the expected value and the minor is at least the floor; and each failure
mode maps to its error: spawn failure to `VersionCheckCommandProcessFailed`,
no pattern match to `VersionOutputNotMatched`, an unparseable field to
`VersionNotValidInteger`, and a wrong major or too-small minor to
`NotSupportedCommandVersion (major, minor)`. -/
theorem claim_C6 (expected_major min_minor : Nat) (spawn : SpawnResult)
    (re : String → Option (String × String)) :
    (check_command expected_major min_minor spawn re = Except.ok () ↔
      ∃ output c1 c2 major minor,
        spawn = Except.ok output ∧ re output.stdout = some (c1, c2)
        ∧ parse_u8 c1 = some major ∧ parse_u8 c2 = some minor
        ∧ major = expected_major ∧ min_minor ≤ minor)
    ∧ (∀ err, spawn = Except.error err →
        check_command expected_major min_minor spawn re
          = Except.error ⟨ErrorKind.VersionCheckCommandProcessFailed err⟩)
    ∧ (∀ output, spawn = Except.ok output → re output.stdout = none →
        check_command expected_major min_minor spawn re
          = Except.error ⟨ErrorKind.VersionOutputNotMatched output.stdout⟩)
    ∧ (∀ output c1 c2, spawn = Except.ok output → re output.stdout = some (c1, c2) →
        parse_u8 c1 = none →
        check_command expected_major min_minor spawn re
          = Except.error ⟨ErrorKind.VersionNotValidInteger c1⟩)
    ∧ (∀ output c1 c2 major, spawn = Except.ok output →
        re output.stdout = some (c1, c2) →
        parse_u8 c1 = some major → parse_u8 c2 = none →
        check_command expected_major min_minor spawn re
          = Except.error ⟨ErrorKind.VersionNotValidInteger c2⟩)
    ∧ (∀ output c1 c2 major minor, spawn = Except.ok output →
        re output.stdout = some (c1, c2) →
        parse_u8 c1 = some major → parse_u8 c2 = some minor →
        (major ≠ expected_major ∨ minor < min_minor) →
        check_command expected_major min_minor spawn re
          = Except.error ⟨ErrorKind.NotSupportedCommandVersion major minor⟩) := by
  refine ⟨?_, ?_, ?_, ?_, ?_, ?_⟩
  · constructor
    · intro hok
      cases hsp : spawn with
      | error err =>
        simp only [check_command.eq_def, hsp] at hok
        exact absurd hok (by simp)
      | ok output =>
        simp only [check_command.eq_def, hsp] at hok
        cases hre : re output.stdout with
        | none =>
          simp only [hre] at hok
          exact absurd hok (by simp)
        | some p =>
          obtain ⟨c1, c2⟩ := p
          simp only [hre] at hok
          cases hp1 : parse_u8 c1 with
          | none =>
            simp only [parse_number, hp1] at hok
            exact absurd hok (by simp)
          | some major =>
            simp only [parse_number, hp1] at hok
            cases hp2 : parse_u8 c2 with
            | none =>
              simp only [parse_number, hp2] at hok
              exact absurd hok (by simp)
            | some minor =>
              simp only [parse_number, hp2] at hok
              by_cases hcond : expected_major ≠ major ∨ minor < min_minor
              · rw [if_pos hcond] at hok
                exact absurd hok (by simp)
              · push_neg at hcond
                exact ⟨output, c1, c2, major, minor, rfl, hre, hp1, hp2,
                  hcond.1.symm, hcond.2⟩
    · rintro ⟨output, c1, c2, major, minor, hsp, hre, hp1, hp2, hmaj, hmin⟩
      simp only [check_command.eq_def, hsp, hre, parse_number, hp1, hp2]
      rw [if_neg]
      push_neg
      exact ⟨hmaj.symm, hmin⟩
  · intro err hsp
    simp only [check_command.eq_def, hsp]
  · intro output hsp hre
    simp only [check_command.eq_def, hsp, hre]
  · intro output c1 c2 hsp hre hp1
    simp only [check_command.eq_def, hsp, hre, parse_number, hp1]
  · intro output c1 c2 major hsp hre hp1 hp2
    simp only [check_command.eq_def, hsp, hre, parse_number, hp1, hp2]
  · intro output c1 c2 major minor hsp hre hp1 hp2 hcond
    simp only [check_command.eq_def, hsp, hre, parse_number, hp1, hp2]
    rw [if_pos (by tauto)]

/-- Concrete instance of C6: a failed spawn is
`VersionCheckCommandProcessFailed`. -/
theorem claim_C6_witness :
    check_command 6 0 (Except.error "no such file") (fun _ => none)
      = Except.error ⟨ErrorKind.VersionCheckCommandProcessFailed "no such file"⟩ :=
  (claim_C6 6 0 (Except.error "no such file") (fun _ => none)).2.1 "no such file" rfl

/-! ## C5 / C7: the pipeline -/

instance {ε α : Type} [DecidableEq ε] [DecidableEq α] : DecidableEq (Except ε α) :=
  fun a b =>
    match a, b with
    | Except.error e1, Except.error e2 =>
      if h : e1 = e2 then isTrue (by rw [h])
      else isFalse (by intro hc; injection hc with hc'; exact h hc')
    | Except.error _, Except.ok _ => isFalse (fun hc => Except.noConfusion hc)
    | Except.ok _, Except.error _ => isFalse (fun hc => Except.noConfusion hc)
    | Except.ok a1, Except.ok a2 =>
      if h : a1 = a2 then isTrue (by rw [h])
      else isFalse (by intro hc; injection hc with hc'; exact h hc')

/-- The quality search never reports `NoAvailableVideoStream`: its error
constructors are `AbAv1CommandProcessFailed`, `InvalidAbAv1Output` and
`UnknownAbAv1ErrorMessage` only. -/
theorem get_best_crf_impl_ne_no_stream (spawn : List String → SpawnResult)
    (video_path : String) (enough_vmaf min_crf : Nat) :
    get_best_crf_impl spawn video_path enough_vmaf min_crf
      ≠ Except.error ⟨ErrorKind.NoAvailableVideoStream⟩ := by
  intro h
  unfold get_best_crf_impl at h
  cases hsp : spawn (ab_av1_crf_search_args enough_vmaf min_crf video_path) with
  | error err => simp only [hsp] at h; exact absurd h (by simp)
  | ok output =>
    simp only [hsp] at h
    by_cases hsucc : output.status.success = true
    · rw [if_pos hsucc] at h
      cases hre : ab_av1_crf_regex_captures output.stdout with
      | none => simp only [hre] at h; exact absurd h (by simp)
      | some p =>
        obtain ⟨c1, c2⟩ := p
        simp only [hre] at h
        cases hp1 : parse_u8 c1 with
        | none => simp only [parse_number, hp1] at h; exact absurd h (by simp)
        | some crf =>
          simp only [parse_number, hp1] at h
          cases hp2 : rustParseF64 c2 with
          | none => simp only [parse_number, hp2] at h; exact absurd h (by simp)
          | some vmaf => simp only [parse_number, hp2] at h; exact absurd h (by simp)
    · rw [if_neg hsucc] at h
      by_cases hm : ab_av1_crf_not_found_match output.stderr = true
      · rw [if_neg (by simp [hm])] at h
        exact absurd h (by simp)
      · rw [if_pos (by simpa using hm)] at h
        exact absurd h (by simp)

/-- **C5**: the aggregate analysis applies per-file analysis to each path
independently (it distributes over concatenation), keeps exactly the
successes in input order, and — once the version checks pass — the pipeline
returns `NoAvailableVideoStream` exactly when every input was discarded. -/
theorem claim_C5 (env : Env) (paths : List String) (output_video_path : String)
    (enough_vmaf min_crf : Nat)
    (h1 : check_command 6 0 env.ffmpeg_version_spawn ffmpeg_version_regex_captures
        = Except.ok ())
    (h2 : check_command 0 7 env.ab_av1_version_spawn ab_av1_version_regex_captures
        = Except.ok ()) :
    (encode_best_effort_impl env paths output_video_path enough_vmaf min_crf
        = Except.error ⟨ErrorKind.NoAvailableVideoStream⟩
      ↔ paths.filterMap (analyze_video_file env.probe) = [])
    ∧ (paths.filterMap (analyze_video_file env.probe) = []
      ↔ ∀ p ∈ paths, analyze_video_file env.probe p = none)
    ∧ (∀ p1 p2 : List String,
        (p1 ++ p2).filterMap (analyze_video_file env.probe)
          = p1.filterMap (analyze_video_file env.probe)
            ++ p2.filterMap (analyze_video_file env.probe)) := by
  refine ⟨?_, List.filterMap_eq_nil_iff, fun p1 p2 => List.filterMap_append p1 p2 _⟩
  constructor
  · intro h
    cases hfm : paths.filterMap (analyze_video_file env.probe) with
    | nil => rfl
    | cons f0 fs =>
      exfalso
      simp only [encode_best_effort_impl, h1, h2, hfm] at h
      cases hg : get_best_crf_impl env.ab_av1_crf_spawn
          (max_by_key_last (fun input_file => input_file.width * input_file.height)
            f0 fs).path enough_vmaf min_crf with
      | error e =>
        simp only [hg] at h
        injection h with h'
        exact get_best_crf_impl_ne_no_stream _ _ _ _ (by rw [hg, h'])
      | ok cv =>
        obtain ⟨best_crf, predicted_vmaf⟩ := cv
        simp only [hg] at h
        cases hsp : env.ffmpeg_encode_spawn
            (ffmpeg_encode_cmd_args (f0 :: fs) best_crf output_video_path) with
        | error err => simp only [hsp] at h; exact absurd h (by simp)
        | ok out =>
          simp only [hsp] at h
          by_cases hsucc : out.status.success <;> simp [hsucc] at h
  · intro hfm
    simp only [encode_best_effort_impl, h1, h2, hfm]

def env_c5 : Env :=
  { ffmpeg_version_spawn := Except.ok ⟨⟨true⟩, "ffmpeg version 6.0", ""⟩
    ab_av1_version_spawn := Except.ok ⟨⟨true⟩, "ab-av1 0.7.9", ""⟩
    probe := fun _ => Except.error "probe failed"
    ab_av1_crf_spawn := fun _ => Except.error "unused"
    ffmpeg_encode_spawn := fun _ => Except.error "unused" }

/-- Concrete instance of C5: when the single input fails to probe, the
pipeline fails with `NoAvailableVideoStream`. -/
theorem claim_C5_witness :
    encode_best_effort_impl env_c5 ["a.mp4"] "out.mp4" 80 20
      = Except.error ⟨ErrorKind.NoAvailableVideoStream⟩ :=
  (claim_C5 env_c5 ["a.mp4"] "out.mp4" 80 20 rfl rfl).1.mpr rfl

/-- **C7**: once the version checks pass, analysis produced at least one
input and the quality search returned `(best_crf, predicted_vmaf)`: a
failed encoder launch yields `FfmpegCommandProcessFailed`, a run exiting
with non-success status yields `FfmpegCommandExitAbnormally` carrying the
captured status and stderr, and a successful run returns exactly the
search's `(best_crf, predicted_vmaf)` pair. -/
theorem claim_C7 (env : Env) (paths : List String) (output_video_path : String)
    (enough_vmaf min_crf : Nat)
    (h1 : check_command 6 0 env.ffmpeg_version_spawn ffmpeg_version_regex_captures
        = Except.ok ())
    (h2 : check_command 0 7 env.ab_av1_version_spawn ab_av1_version_regex_captures
        = Except.ok ())
    (f0 : InputFile) (fs : List InputFile)
    (hfiles : paths.filterMap (analyze_video_file env.probe) = f0 :: fs)
    (best_crf : Nat) (predicted_vmaf : Option F64)
    (hcrf : get_best_crf_impl env.ab_av1_crf_spawn
        (max_by_key_last (fun input_file => input_file.width * input_file.height)
          f0 fs).path enough_vmaf min_crf
      = Except.ok (best_crf, predicted_vmaf)) :
    (∀ err, env.ffmpeg_encode_spawn
          (ffmpeg_encode_cmd_args (f0 :: fs) best_crf output_video_path)
        = Except.error err →
      encode_best_effort_impl env paths output_video_path enough_vmaf min_crf
        = Except.error ⟨ErrorKind.FfmpegCommandProcessFailed err⟩)
    ∧ (∀ out, env.ffmpeg_encode_spawn
          (ffmpeg_encode_cmd_args (f0 :: fs) best_crf output_video_path)
        = Except.ok out → out.status.success = false →
      encode_best_effort_impl env paths output_video_path enough_vmaf min_crf
        = Except.error ⟨ErrorKind.FfmpegCommandExitAbnormally out.status out.stderr⟩)
    ∧ (∀ out, env.ffmpeg_encode_spawn
          (ffmpeg_encode_cmd_args (f0 :: fs) best_crf output_video_path)
        = Except.ok out → out.status.success = true →
      encode_best_effort_impl env paths output_video_path enough_vmaf min_crf
        = Except.ok (best_crf, predicted_vmaf)) := by
  refine ⟨?_, ?_, ?_⟩
  · intro err hsp
    simp only [encode_best_effort_impl, h1, h2, hfiles, hcrf, hsp]
  · intro out hsp hsucc
    simp only [encode_best_effort_impl, h1, h2, hfiles, hcrf, hsp, hsucc]
    rfl
  · intro out hsp hsucc
    simp only [encode_best_effort_impl, h1, h2, hfiles, hcrf, hsp, hsucc]
    rfl

def env_c7 : Env :=
  { ffmpeg_version_spawn := Except.ok ⟨⟨true⟩, "ffmpeg version 6.0", ""⟩
    ab_av1_version_spawn := Except.ok ⟨⟨true⟩, "ab-av1 0.7.9", ""⟩
    probe := fun path =>
      if path = "a.mp4" then
        Except.ok ⟨⟨some "1"⟩,
          [⟨some "video", some 300, some 400, some "1"⟩,
           ⟨some "audio", none, none, none⟩]⟩
      else Except.error "no such file"
    ab_av1_crf_spawn := fun _ => Except.ok ⟨⟨true⟩, "crf 30 VMAF 95", ""⟩
    ffmpeg_encode_spawn := fun _ => Except.ok ⟨⟨true⟩, "", ""⟩ }

/-- Concrete instance of C7: a fully successful run returns the search's
`(crf, vmaf)` pair. -/
theorem claim_C7_witness :
    encode_best_effort_impl env_c7 ["a.mp4"] "out.mp4" 80 20
      = Except.ok (30, some (F64.finite 95)) :=
  (claim_C7 env_c7 ["a.mp4"] "out.mp4" 80 20 rfl rfl
    ⟨"a.mp4", 300, 400, none⟩ [] (by decide) 30 (some (F64.finite 95)) (by decide)).2.2
    ⟨⟨true⟩, "", ""⟩ rfl rfl

/-! ## C10: the `u8` floor argument -/

/-- **C10**: the quality search passes `min_crf + 1` as the exclusive
parameter floor, computed in 8-bit unsigned arithmetic: the addition does
not overflow exactly when `min_crf ≤ 254` (so the passed floor is literally
`min_crf + 1` there), and at `min_crf = 255` it overflows, making `254` the
largest floor with defined behavior. -/
theorem claim_C10 (enough_vmaf min_crf : Nat) (video_path : String)
    (h : min_crf < 256) :
    (u8AddOverflows min_crf 1 = false ↔ min_crf ≤ 254)
    ∧ (min_crf ≤ 254 →
        (ab_av1_crf_search_args enough_vmaf min_crf video_path).get? 4
          = some (toString (min_crf + 1)))
    ∧ u8AddOverflows 255 1 = true := by
  refine ⟨?_, ?_, by decide⟩
  · simp only [u8AddOverflows, decide_eq_false_iff_not, not_le]
    omega
  · intro hle
    simp only [ab_av1_crf_search_args]
    rw [Nat.mod_eq_of_lt (by omega)]
    rfl

/-- Concrete instance of C10: at floor `20` the search is passed `21`. -/
theorem claim_C10_witness :
    (ab_av1_crf_search_args 80 20 "v.mp4").get? 4 = some "21" :=
  ((claim_C10 80 20 "v.mp4" (by omega)).2.1 (by omega)).trans (by decide)

/-! ## C9: characterization of the version regex matchers -/

theorem dropLit_eq_some (lit : List Char) :
    ∀ {cs rest : List Char}, dropLit lit cs = some rest ↔ cs = lit ++ rest := by
  induction lit with
  | nil =>
    intro cs rest
    simp [dropLit]
  | cons l ls ih =>
    intro cs rest
    cases cs with
    | nil => simp [dropLit]
    | cons c cs' =>
      simp only [dropLit, List.cons_append, List.cons.injEq]
      by_cases hc : c = l
      · rw [if_pos hc, ih]
        exact ⟨fun h => ⟨hc, h⟩, fun h => h.2⟩
      · rw [if_neg hc]
        simp [hc]

theorem dropSpaces1_eq_some {cs rest : List Char} :
    dropSpaces1 cs = some rest ↔
      ∃ w, cs = w ++ rest ∧ w ≠ [] ∧ (∀ c ∈ w, isSpaceCh c = true)
        ∧ (∀ c, rest.head? = some c → isSpaceCh c = false) := by
  constructor
  · intro h
    cases cs with
    | nil => exact absurd h (by simp [dropSpaces1])
    | cons c t =>
      by_cases hc : isSpaceCh c = true
      · rw [dropSpaces1, if_pos hc] at h
        injection h with h'
        refine ⟨c :: t.takeWhile isSpaceCh, ?_, by simp, ?_, ?_⟩
        · rw [← h', List.cons_append, List.takeWhile_append_dropWhile]
        · intro x hx
          rcases List.mem_cons.mp hx with hx | hx
          · rw [hx]; exact hc
          · exact List.mem_takeWhile_imp hx
        · intro x hx
          rw [← h'] at hx
          exact head_dropWhile_false _ hx
      · rw [dropSpaces1, if_neg hc] at h
        exact absurd h (by simp)
  · rintro ⟨w, hcs, hne, hw, hrest⟩
    cases w with
    | nil => exact absurd rfl hne
    | cons c w' =>
      rw [hcs, List.cons_append, dropSpaces1,
        if_pos (hw c (List.mem_cons_self c w')),
        dropWhile_append_of_all isSpaceCh rest
          (fun x hx => hw x (List.mem_cons_of_mem c hx)),
        dropWhile_eq_self_of_head isSpaceCh hrest]

theorem spanDigits_eq (cs : List Char) :
    cs = (spanDigits cs).1 ++ (spanDigits cs).2
    ∧ (∀ c ∈ (spanDigits cs).1, isDigitCh c = true)
    ∧ (∀ c, (spanDigits cs).2.head? = some c → isDigitCh c = false) :=
  ⟨(List.takeWhile_append_dropWhile isDigitCh cs).symm,
   fun _ hc => List.mem_takeWhile_imp hc,
   fun _ hc => head_dropWhile_false _ hc⟩

theorem spanDigits_of_decomp {cs d rest : List Char} (hcs : cs = d ++ rest)
    (hd : ∀ c ∈ d, isDigitCh c = true)
    (hrest : ∀ c, rest.head? = some c → isDigitCh c = false) :
    spanDigits cs = (d, rest) := by
  subst hcs
  simp only [spanDigits, Prod.mk.injEq]
  exact ⟨takeWhile_append_of_all isDigitCh rest hd hrest,
    by rw [dropWhile_append_of_all isDigitCh rest hd,
      dropWhile_eq_self_of_head isDigitCh hrest]⟩

theorem abAv1TailOk_iff {t : List Char} :
    abAv1TailOk t = true ↔
      ∃ c p rest, t = c :: p :: rest ∧ c ≠ '\n' ∧ isDigitCh p = true
        ∧ wordBoundaryAfter rest = true := by
  cases t with
  | nil =>
    refine iff_of_false (by simp [abAv1TailOk]) ?_
    rintro ⟨c, p, rest, heq, -⟩
    exact List.noConfusion heq
  | cons c t' =>
    cases t' with
    | nil =>
      refine iff_of_false (by simp [abAv1TailOk]) ?_
      rintro ⟨c', p, rest, heq, -⟩
      injection heq with h1 h2
      exact List.noConfusion h2
    | cons p rest =>
      simp only [abAv1TailOk, Bool.and_eq_true, decide_eq_true_eq]
      constructor
      · rintro ⟨⟨hc, hp⟩, hb⟩
        exact ⟨c, p, rest, rfl, hc, hp, hb⟩
      · rintro ⟨c', p', rest', heq, hc, hp, hb⟩
        injection heq with h1 h2
        injection h2 with h2 h3
        subst h1; subst h2; subst h3
        exact ⟨⟨hc, hp⟩, hb⟩

theorem abAv1Minor_some_iff :
    ∀ (t g2rev : List Char),
      (abAv1Minor g2rev t).isSome = true ↔
        ∃ ds c p rest, t = ds ++ c :: p :: rest
          ∧ (∀ x ∈ ds, isDigitCh x = true)
          ∧ c ≠ '\n' ∧ isDigitCh p = true ∧ wordBoundaryAfter rest = true := by
  intro t
  induction t with
  | nil =>
    intro g2rev
    refine iff_of_false (by simp [abAv1Minor]) ?_
    rintro ⟨ds, c, p, rest, heq, -⟩
    cases ds with
    | nil => exact List.noConfusion heq
    | cons d ds' => exact List.noConfusion heq
  | cons c0 t' ih =>
    intro g2rev
    by_cases hd : isDigitCh c0 = true
    · constructor
      · intro h
        rw [abAv1Minor, if_pos hd] at h
        cases hin : abAv1Minor (c0 :: g2rev) t' with
        | some g2 =>
          have hin' : (abAv1Minor (c0 :: g2rev) t').isSome = true := by
            rw [hin]; rfl
          obtain ⟨ds, c, p, rest, heq, hds, hc, hp, hb⟩ := (ih (c0 :: g2rev)).mp hin'
          refine ⟨c0 :: ds, c, p, rest, by rw [heq]; rfl, ?_, hc, hp, hb⟩
          intro x hx
          rcases List.mem_cons.mp hx with hx | hx
          · rw [hx]; exact hd
          · exact hds x hx
        | none =>
          rw [hin] at h
          by_cases htail : abAv1TailOk (c0 :: t') = true
          · obtain ⟨c, p, rest, heq, hc, hp, hb⟩ := abAv1TailOk_iff.mp htail
            exact ⟨[], c, p, rest, heq, by simp, hc, hp, hb⟩
          · rw [if_neg htail] at h
            exact absurd h (by simp)
      · rintro ⟨ds, c, p, rest, heq, hds, hc, hp, hb⟩
        rw [abAv1Minor, if_pos hd]
        cases ds with
        | nil =>
          have htail : abAv1TailOk (c0 :: t') = true := by
            rw [heq]
            exact abAv1TailOk_iff.mpr ⟨c, p, rest, by simp, hc, hp, hb⟩
          cases hin : abAv1Minor (c0 :: g2rev) t' with
          | some g2 => rfl
          | none => rw [if_pos htail]; rfl
        | cons d0 ds' =>
          injection heq with h1 h2
          have hin : (abAv1Minor (c0 :: g2rev) t').isSome = true :=
            (ih (c0 :: g2rev)).mpr
              ⟨ds', c, p, rest, h2,
               fun x hx => hds x (List.mem_cons_of_mem d0 hx), hc, hp, hb⟩
          cases hinn : abAv1Minor (c0 :: g2rev) t' with
          | some g2 => rfl
          | none => rw [hinn] at hin; exact absurd hin (by simp)
    · constructor
      · intro h
        rw [abAv1Minor, if_neg hd] at h
        by_cases htail : abAv1TailOk (c0 :: t') = true
        · obtain ⟨c, p, rest, heq, hc, hp, hb⟩ := abAv1TailOk_iff.mp htail
          exact ⟨[], c, p, rest, heq, by simp, hc, hp, hb⟩
        · rw [if_neg htail] at h
          exact absurd h (by simp)
      · rintro ⟨ds, c, p, rest, heq, hds, hc, hp, hb⟩
        rw [abAv1Minor, if_neg hd]
        cases ds with
        | nil =>
          have htail : abAv1TailOk (c0 :: t') = true := by
            rw [heq]
            exact abAv1TailOk_iff.mpr ⟨c, p, rest, by simp, hc, hp, hb⟩
          rw [if_pos htail]
          rfl
        | cons d0 ds' =>
          injection heq with h1 h2
          exact absurd (h1 ▸ hds d0 (List.mem_cons_self d0 ds')) hd

/-- The embedded `ffmpeg` version matcher accepts exactly the strings of
the shape `^ffmpeg\s+version\s+(\d+)\.(\d+)\b`. -/
theorem ffmpeg_version_matcher_iff (s : String) :
    (ffmpeg_version_regex_captures s).isSome = true ↔
      ∃ w1 w2 d1 d2 rest : List Char,
        s.toList = "ffmpeg".toList ++ w1 ++ "version".toList ++ w2 ++ d1
          ++ '.' :: (d2 ++ rest)
        ∧ w1 ≠ [] ∧ (∀ c ∈ w1, isSpaceCh c = true)
        ∧ w2 ≠ [] ∧ (∀ c ∈ w2, isSpaceCh c = true)
        ∧ d1 ≠ [] ∧ (∀ c ∈ d1, isDigitCh c = true)
        ∧ d2 ≠ [] ∧ (∀ c ∈ d2, isDigitCh c = true)
        ∧ wordBoundaryAfter rest = true := by
  constructor
  · intro h
    rw [ffmpeg_version_regex_captures] at h
    cases h1 : dropLit "ffmpeg".toList s.toList with
    | none => simp only [h1] at h; exact absurd h (by simp)
    | some cs1 =>
      simp only [h1] at h
      cases h2 : dropSpaces1 cs1 with
      | none => simp only [h2] at h; exact absurd h (by simp)
      | some cs2 =>
        simp only [h2] at h
        cases h3 : dropLit "version".toList cs2 with
        | none => simp only [h3] at h; exact absurd h (by simp)
        | some cs3 =>
          simp only [h3] at h
          cases h4 : dropSpaces1 cs3 with
          | none => simp only [h4] at h; exact absurd h (by simp)
          | some cs4 =>
            simp only [h4] at h
            rcases h5 : spanDigits cs4 with ⟨d1, cs5⟩
            simp only [h5] at h
            by_cases hd1 : d1 = []
            · rw [if_pos hd1] at h; exact absurd h (by simp)
            · rw [if_neg hd1] at h
              cases h6 : dropLit ['.'] cs5 with
              | none => simp only [h6] at h; exact absurd h (by simp)
              | some cs6 =>
                simp only [h6] at h
                rcases h7 : spanDigits cs6 with ⟨d2, rest⟩
                simp only [h7] at h
                by_cases hd2 : d2 = []
                · rw [if_pos hd2] at h; exact absurd h (by simp)
                · rw [if_neg hd2] at h
                  by_cases hb : wordBoundaryAfter rest = true
                  · obtain ⟨w1, hcs1, hw1ne, hw1, -⟩ := dropSpaces1_eq_some.mp h2
                    obtain ⟨w2, hcs3, hw2ne, hw2, -⟩ := dropSpaces1_eq_some.mp h4
                    have hc4 := spanDigits_eq cs4
                    rw [h5] at hc4
                    have hc6 := spanDigits_eq cs6
                    rw [h7] at hc6
                    refine ⟨w1, w2, d1, d2, rest, ?_, hw1ne, hw1, hw2ne, hw2,
                      hd1, hc4.2.1, hd2, hc6.2.1, hb⟩
                    rw [(dropLit_eq_some _).mp h1, hcs1, (dropLit_eq_some _).mp h3,
                      hcs3, hc4.1, (dropLit_eq_some _).mp h6, hc6.1]
                    simp [List.append_assoc]
                  · rw [if_neg hb] at h; exact absurd h (by simp)
  · rintro ⟨w1, w2, d1, d2, rest, hcs, hw1ne, hw1, hw2ne, hw2, hd1ne, hd1,
      hd2ne, hd2, hb⟩
    simp only [List.append_assoc] at hcs
    have e1 : dropLit "ffmpeg".toList s.toList
        = some (w1 ++ ("version".toList ++ (w2 ++ (d1 ++ '.' :: (d2 ++ rest))))) :=
      (dropLit_eq_some _).mpr hcs
    have hv : ∀ c, ("version".toList ++ (w2 ++ (d1 ++ '.' :: (d2 ++ rest)))).head?
        = some c → isSpaceCh c = false := by
      intro c hc
      have hh : ("version".toList ++ (w2 ++ (d1 ++ '.' :: (d2 ++ rest)))).head?
          = some 'v' := rfl
      rw [hh] at hc
      injection hc with hc'
      rw [← hc']
      decide
    have e2 : dropSpaces1
          (w1 ++ ("version".toList ++ (w2 ++ (d1 ++ '.' :: (d2 ++ rest)))))
        = some ("version".toList ++ (w2 ++ (d1 ++ '.' :: (d2 ++ rest)))) :=
      dropSpaces1_eq_some.mpr ⟨w1, rfl, hw1ne, hw1, hv⟩
    have e3 : dropLit "version".toList
          ("version".toList ++ (w2 ++ (d1 ++ '.' :: (d2 ++ rest))))
        = some (w2 ++ (d1 ++ '.' :: (d2 ++ rest))) :=
      (dropLit_eq_some _).mpr rfl
    have hd1head : ∀ c, (d1 ++ '.' :: (d2 ++ rest)).head? = some c →
        isSpaceCh c = false := by
      intro c hc
      cases d1 with
      | nil => exact absurd rfl hd1ne
      | cons x d1' =>
        rw [List.cons_append, List.head?_cons] at hc
        injection hc with hc'
        rw [← hc']
        exact digit_not_space (hd1 x (List.mem_cons_self x d1'))
    have e4 : dropSpaces1 (w2 ++ (d1 ++ '.' :: (d2 ++ rest)))
        = some (d1 ++ '.' :: (d2 ++ rest)) :=
      dropSpaces1_eq_some.mpr ⟨w2, rfl, hw2ne, hw2, hd1head⟩
    have hdothead : ∀ c, ('.' :: (d2 ++ rest)).head? = some c →
        isDigitCh c = false := by
      intro c hc
      rw [List.head?_cons] at hc
      injection hc with hc'
      rw [← hc']
      decide
    have e5 : spanDigits (d1 ++ '.' :: (d2 ++ rest)) = (d1, '.' :: (d2 ++ rest)) :=
      spanDigits_of_decomp rfl hd1 hdothead
    have e6 : dropLit ['.'] ('.' :: (d2 ++ rest)) = some (d2 ++ rest) :=
      (dropLit_eq_some _).mpr rfl
    have hresthead : ∀ c, rest.head? = some c → isDigitCh c = false := by
      intro c hc
      cases rest with
      | nil => exact absurd hc (by simp)
      | cons r rest' =>
        rw [List.head?_cons] at hc
        injection hc with hc'
        rw [← hc']
        rw [wordBoundaryAfter, Bool.not_eq_true'] at hb
        cases hdig : isDigitCh r with
        | false => rfl
        | true => exact absurd (digit_isWord hdig) (by rw [hb]; simp)
    have e7 : spanDigits (d2 ++ rest) = (d2, rest) :=
      spanDigits_of_decomp rfl hd2 hresthead
    simp only [ffmpeg_version_regex_captures, e1, e2, e3, e4, e5, e6, e7,
      hb, if_true]
    rw [if_neg hd1ne, if_neg hd2ne]
    rfl

/-- The embedded `ab-av1` version matcher accepts exactly the strings of
the shape `^ab-av1\s+(\d+)\.(\d+).\d\b` — after `major.minor` comes any
single non-newline character, a single digit, and a word boundary. -/
theorem ab_av1_version_matcher_iff (s : String) :
    (ab_av1_version_regex_captures s).isSome = true ↔
      ∃ (w d1 d2 : List Char) (c p : Char) (rest : List Char),
        s.toList = "ab-av1".toList ++ w ++ d1 ++ '.' :: (d2 ++ c :: p :: rest)
        ∧ w ≠ [] ∧ (∀ x ∈ w, isSpaceCh x = true)
        ∧ d1 ≠ [] ∧ (∀ x ∈ d1, isDigitCh x = true)
        ∧ d2 ≠ [] ∧ (∀ x ∈ d2, isDigitCh x = true)
        ∧ c ≠ '\n' ∧ isDigitCh p = true ∧ wordBoundaryAfter rest = true := by
  constructor
  · intro h
    rw [ab_av1_version_regex_captures] at h
    cases h1 : dropLit "ab-av1".toList s.toList with
    | none => simp only [h1] at h; exact absurd h (by simp)
    | some cs1 =>
      simp only [h1] at h
      cases h2 : dropSpaces1 cs1 with
      | none => simp only [h2] at h; exact absurd h (by simp)
      | some cs2 =>
        simp only [h2] at h
        rcases h5 : spanDigits cs2 with ⟨d1, cs5⟩
        simp only [h5] at h
        by_cases hd1 : d1 = []
        · rw [if_pos hd1] at h; exact absurd h (by simp)
        · rw [if_neg hd1] at h
          cases h6 : dropLit ['.'] cs5 with
          | none => simp only [h6] at h; exact absurd h (by simp)
          | some t =>
            simp only [h6] at h
            cases t with
            | nil => exact absurd h (by simp)
            | cons c0 cs6 =>
              by_cases hdig : isDigitCh c0 = true
              · simp only [hdig, if_true] at h
                cases hmin : abAv1Minor [c0] cs6 with
                | none => simp only [hmin] at h; exact absurd h (by simp)
                | some g2 =>
                  have hmin' : (abAv1Minor [c0] cs6).isSome = true := by
                    rw [hmin]; rfl
                  obtain ⟨ds, c, p, rest, heq, hds, hc, hp, hb⟩ :=
                    (abAv1Minor_some_iff cs6 [c0]).mp hmin'
                  obtain ⟨w, hcs1, hwne, hw, -⟩ := dropSpaces1_eq_some.mp h2
                  have hc2 := spanDigits_eq cs2
                  rw [h5] at hc2
                  refine ⟨w, d1, c0 :: ds, c, p, rest, ?_, hwne, hw, hd1,
                    hc2.2.1, by simp, ?_, hc, hp, hb⟩
                  · rw [(dropLit_eq_some _).mp h1, hcs1, hc2.1,
                      (dropLit_eq_some _).mp h6, heq]
                    simp [List.append_assoc]
                  · intro x hx
                    rcases List.mem_cons.mp hx with hx | hx
                    · rw [hx]; exact hdig
                    · exact hds x hx
              · simp only [hdig, Bool.false_eq_true, if_false] at h
                exact absurd h (by simp)
  · rintro ⟨w, d1, d2, c, p, rest, hcs, hwne, hw, hd1ne, hd1, hd2ne, hd2,
      hc, hp, hb⟩
    simp only [List.append_assoc] at hcs
    cases d2 with
    | nil => exact absurd rfl hd2ne
    | cons d20 d2' =>
      rw [List.cons_append] at hcs
      have e1 : dropLit "ab-av1".toList s.toList
          = some (w ++ (d1 ++ '.' :: (d20 :: (d2' ++ c :: p :: rest)))) :=
        (dropLit_eq_some _).mpr hcs
      have hd1head : ∀ x, (d1 ++ '.' :: (d20 :: (d2' ++ c :: p :: rest))).head?
          = some x → isSpaceCh x = false := by
        intro x hx
        cases d1 with
        | nil => exact absurd rfl hd1ne
        | cons y d1' =>
          rw [List.cons_append, List.head?_cons] at hx
          injection hx with hx'
          rw [← hx']
          exact digit_not_space (hd1 y (List.mem_cons_self y d1'))
      have e2 : dropSpaces1 (w ++ (d1 ++ '.' :: (d20 :: (d2' ++ c :: p :: rest))))
          = some (d1 ++ '.' :: (d20 :: (d2' ++ c :: p :: rest))) :=
        dropSpaces1_eq_some.mpr ⟨w, rfl, hwne, hw, hd1head⟩
      have hdothead : ∀ x, ('.' :: (d20 :: (d2' ++ c :: p :: rest))).head?
          = some x → isDigitCh x = false := by
        intro x hx
        rw [List.head?_cons] at hx
        injection hx with hx'
        rw [← hx']
        decide
      have e5 : spanDigits (d1 ++ '.' :: (d20 :: (d2' ++ c :: p :: rest)))
          = (d1, '.' :: (d20 :: (d2' ++ c :: p :: rest))) :=
        spanDigits_of_decomp rfl hd1 hdothead
      have e6 : dropLit ['.'] ('.' :: (d20 :: (d2' ++ c :: p :: rest)))
          = some (d20 :: (d2' ++ c :: p :: rest)) :=
        (dropLit_eq_some _).mpr rfl
      have hmin : (abAv1Minor [d20] (d2' ++ c :: p :: rest)).isSome = true :=
        (abAv1Minor_some_iff (d2' ++ c :: p :: rest) [d20]).mpr
          ⟨d2', c, p, rest, rfl,
           fun x hx => hd2 x (List.mem_cons_of_mem d20 hx), hc, hp, hb⟩
      have hdig : isDigitCh d20 = true := hd2 d20 (List.mem_cons_self d20 d2')
      cases hmin2 : abAv1Minor [d20] (d2' ++ c :: p :: rest) with
      | none => rw [hmin2] at hmin; exact absurd hmin (by simp)
      | some g2 =>
        simp only [ab_av1_version_regex_captures, e1, e2, e5, e6, hdig, if_true,
          hmin2]
        rw [if_neg hd1ne]
        rfl

/-- **C9 counterexample**: `"ab-av1 0.7.10"` has the claimed shape (tool
name, whitespace, `major.minor.patch` with a multi-digit patch of literal
dot-separated digits), yet the guard rejects it with
`VersionOutputNotMatched`; and `"ffmpeg version 6.0a"` matches the claimed
encoder pattern `^ffmpeg\s+version?\s+(\d+)\.(\d+)` (which has no
trailing word boundary), yet the matcher rejects it. -/
theorem claim_C9_counterexample :
    ab_av1_version_regex_captures "ab-av1 0.7.10" = none
    ∧ check_command 0 7 (Except.ok ⟨⟨true⟩, "ab-av1 0.7.10", ""⟩)
        ab_av1_version_regex_captures
      = Except.error ⟨ErrorKind.VersionOutputNotMatched "ab-av1 0.7.10"⟩
    ∧ "ab-av1 0.7.10" = "ab-av1" ++ " " ++ "0" ++ "." ++ "7" ++ "." ++ "10"
    ∧ (isSpaceCh ' ' ∧ isDigitCh '0' ∧ isDigitCh '7' ∧ ['1', '0'].all isDigitCh)
    ∧ ffmpeg_version_regex_captures "ffmpeg version 6.0a" = none
    ∧ "ffmpeg version 6.0a"
        = "ffmpeg" ++ " " ++ "version" ++ " " ++ "6" ++ "." ++ "0" ++ "a" :=
  ⟨by decide, by decide, by decide, by decide, by decide, by decide⟩

/-- **C9 (amended)**: a version-output line is accepted by the
compatibility guard exactly when it matches the source patterns: for the
encoder `^ffmpeg\s+version\s+(\d+)\.(\d+)\b` — the literal word
`version` and a word boundary after the minor number — and for the search
tool `^ab-av1\s+(\d+)\.(\d+).\d\b` — after `major.minor`, any single
non-newline character, a single patch digit, and a word boundary (so a
multi-digit patch does not match). -/
theorem claim_C9_amended (s : String) :
    ((ffmpeg_version_regex_captures s).isSome = true ↔
      ∃ w1 w2 d1 d2 rest : List Char,
        s.toList = "ffmpeg".toList ++ w1 ++ "version".toList ++ w2 ++ d1
          ++ '.' :: (d2 ++ rest)
        ∧ w1 ≠ [] ∧ (∀ c ∈ w1, isSpaceCh c = true)
        ∧ w2 ≠ [] ∧ (∀ c ∈ w2, isSpaceCh c = true)
        ∧ d1 ≠ [] ∧ (∀ c ∈ d1, isDigitCh c = true)
        ∧ d2 ≠ [] ∧ (∀ c ∈ d2, isDigitCh c = true)
        ∧ wordBoundaryAfter rest = true)
    ∧ ((ab_av1_version_regex_captures s).isSome = true ↔
      ∃ (w d1 d2 : List Char) (c p : Char) (rest : List Char),
        s.toList = "ab-av1".toList ++ w ++ d1 ++ '.' :: (d2 ++ c :: p :: rest)
        ∧ w ≠ [] ∧ (∀ x ∈ w, isSpaceCh x = true)
        ∧ d1 ≠ [] ∧ (∀ x ∈ d1, isDigitCh x = true)
        ∧ d2 ≠ [] ∧ (∀ x ∈ d2, isDigitCh x = true)
        ∧ c ≠ '\n' ∧ isDigitCh p = true ∧ wordBoundaryAfter rest = true) :=
  ⟨ffmpeg_version_matcher_iff s, ab_av1_version_matcher_iff s⟩

/-- Concrete instance of C2 (amended): with two equal-area inputs the
selected reference is the last one. -/
theorem claim_C2_amended_witness :
    ∃ a b, [(⟨"a.mp4", 4, 3, none⟩ : InputFile), ⟨"b.mp4", 3, 4, none⟩]
        = a ++ max_by_key_last (fun g => g.width * g.height)
            ⟨"a.mp4", 4, 3, none⟩ [⟨"b.mp4", 3, 4, none⟩] :: b
        ∧ ∀ f ∈ b, f.width * f.height
            < (max_by_key_last (fun g => g.width * g.height)
                ⟨"a.mp4", 4, 3, none⟩ [⟨"b.mp4", 3, 4, none⟩]).width
              * (max_by_key_last (fun g => g.width * g.height)
                  ⟨"a.mp4", 4, 3, none⟩ [⟨"b.mp4", 3, 4, none⟩]).height :=
  (claim_C2_amended ⟨"a.mp4", 4, 3, none⟩ [⟨"b.mp4", 3, 4, none⟩]).2

/-- Concrete instance of C9 (amended): `"ab-av1 0.7.9"` is accepted, so it
decomposes as the source pattern requires. -/
theorem claim_C9_amended_witness :
    ∃ (w d1 d2 : List Char) (c p : Char) (rest : List Char),
      "ab-av1 0.7.9".toList
          = "ab-av1".toList ++ w ++ d1 ++ '.' :: (d2 ++ c :: p :: rest)
        ∧ w ≠ [] ∧ (∀ x ∈ w, isSpaceCh x = true)
        ∧ d1 ≠ [] ∧ (∀ x ∈ d1, isDigitCh x = true)
        ∧ d2 ≠ [] ∧ (∀ x ∈ d2, isDigitCh x = true)
        ∧ c ≠ '\n' ∧ isDigitCh p = true ∧ wordBoundaryAfter rest = true :=
  (claim_C9_amended "ab-av1 0.7.9").2.mp (by decide)

end VideoConcat
